import Mathlib

/-!
Verification development for the cron-describe repository
(src/cronParser.ts, class CronParser).

The embedding translates the TypeScript source into Lean definitions:

* A luxon DateTime in the fixed zone of the schedule is modelled as a
  record of civil calendar fields (year, month, day, hour, minute,
  second), with proleptic Gregorian arithmetic.  The civil-calendar and
  timezone library (luxon) is an external collaborator of the repository;
  the concrete schedules settled here all use the UTC zone, where a zone
  conversion is the identity, so the model drops the zone parameter and
  the setZone calls.  All DateTime values built by the search are valid
  civil dates by construction; the two places where the source can build
  an invalid date (DateTime.fromObject inside getDayOfMonthSet) are
  modelled by explicit range checks mirroring the invalidReason tests.
* JavaScript strings are modelled as lists of characters, and the string
  operations used by the parser (trim/split, toUpperCase, regex name
  replacement, parseInt) are defined below on lists of characters.
* The two for-loops of parseField whose index is advanced by the parsed
  step value are unbounded in the source when the step is negative (the
  loop condition stays true forever).  They are modelled with a fuel
  counter; running out of fuel is a distinct outcome (Res run = none)
  that marks the nonterminating executions.  For every in-domain
  terminating execution the iteration count is at most
  max - min + 2 <= 131 (the widest field domain is years, 1970..2099),
  so the fuel constant 256 never changes a terminating result.
* parseInt returning NaN is modelled by Option.  The two places where
  the source stores a NaN into a numeric field without throwing
  (lastDayOffset for a malformed L- offset, nthDay for a malformed #n)
  are modelled by 0, which is behaviourally identical there: NaN is
  falsy exactly like 0, and both NaN and 0 are different from every
  computed week number 1..5.
-/

namespace CronDescribe

/-- Gregorian leap year test, as luxon computes February lengths. -/
def isLeapYear (y : Int) : Bool :=
  (y % 4 == 0 && y % 100 != 0) || y % 400 == 0

/-- Number of days of a month, as luxon daysInMonth on a valid date.
The final catch-all arm mirrors the source fallback (daysInMonth ?? 30),
which is unreachable for months 1..12. -/
def daysInMonth (y m : Int) : Int :=
  if m == 1 then 31
  else if m == 2 then (if isLeapYear y then 29 else 28)
  else if m == 3 then 31
  else if m == 4 then 30
  else if m == 5 then 31
  else if m == 6 then 30
  else if m == 7 then 31
  else if m == 8 then 31
  else if m == 9 then 30
  else if m == 10 then 31
  else if m == 11 then 30
  else if m == 12 then 31
  else 30

/-- Days since 1970-01-01 of a civil date (proleptic Gregorian). -/
def daysFromCivil (y m d : Int) : Int :=
  let y2 := if m ≤ 2 then y - 1 else y
  let era := y2 / 400
  let yoe := y2 - era * 400
  let mp := (m + 9) % 12
  let doy := (153 * mp + 2) / 5 + d - 1
  let doe := yoe * 365 + yoe / 4 - yoe / 100 + doy
  era * 146097 + doe - 719468

/-- ISO weekday of a civil date, 1 = Monday .. 7 = Sunday, the luxon
DateTime.weekday convention (1970-01-01 was a Thursday). -/
def weekdayOf (y m d : Int) : Int :=
  (daysFromCivil y m d + 3) % 7 + 1

/-- A luxon DateTime in the fixed zone of the schedule, reduced to its
civil second-resolution fields. -/
structure DateTime where
  year : Int
  month : Int
  day : Int
  hour : Int
  minute : Int
  second : Int
deriving DecidableEq, Repr

/-- Seconds since the Unix epoch of a DateTime, as toUnixInteger in the
UTC zone. -/
def epochOf (dt : DateTime) : Int :=
  daysFromCivil dt.year dt.month dt.day * 86400
    + dt.hour * 3600 + dt.minute * 60 + dt.second

/-- dt.plus seconds 1 followed by startOf second, on a valid DateTime:
add one second with carries through minute, hour, day, month, year. -/
def addSecond (dt : DateTime) : DateTime :=
  if dt.second + 1 ≤ 59 then { dt with second := dt.second + 1 }
  else if dt.minute + 1 ≤ 59 then { dt with minute := dt.minute + 1, second := 0 }
  else if dt.hour + 1 ≤ 23 then { dt with hour := dt.hour + 1, minute := 0, second := 0 }
  else if dt.day + 1 ≤ daysInMonth dt.year dt.month then
    { dt with day := dt.day + 1, hour := 0, minute := 0, second := 0 }
  else if dt.month + 1 ≤ 12 then
    { dt with month := dt.month + 1, day := 1, hour := 0, minute := 0, second := 0 }
  else
    { year := dt.year + 1, month := 1, day := 1, hour := 0, minute := 0, second := 0 }

/-- dt.minus seconds 1 (endOf second only changes the millisecond part,
which the model does not carry): subtract one second with borrows. -/
def subSecond (dt : DateTime) : DateTime :=
  if dt.second - 1 ≥ 0 then { dt with second := dt.second - 1 }
  else if dt.minute - 1 ≥ 0 then { dt with minute := dt.minute - 1, second := 59 }
  else if dt.hour - 1 ≥ 0 then { dt with hour := dt.hour - 1, minute := 59, second := 59 }
  else if dt.day - 1 ≥ 1 then
    { dt with day := dt.day - 1, hour := 23, minute := 59, second := 59 }
  else if dt.month - 1 ≥ 1 then
    let pd := daysInMonth dt.year (dt.month - 1)
    { dt with month := dt.month - 1, day := pd, hour := 23, minute := 59, second := 59 }
  else
    { year := dt.year - 1, month := 12, day := 31, hour := 23, minute := 59, second := 59 }

/-- Outcome of a constructor-path computation: run = none models a
nonterminating execution, some (error msg) a thrown CronError with its
message, some (ok a) normal completion. -/
structure Res (α : Type) where
  run : Option (Except String α)

instance {ε α : Type} [DecidableEq ε] [DecidableEq α] : DecidableEq (Except ε α)
  | Except.error e, Except.error f => decidable_of_iff (e = f) (by simp)
  | Except.error _, Except.ok _ => isFalse (by simp)
  | Except.ok _, Except.error _ => isFalse (by simp)
  | Except.ok x, Except.ok y => decidable_of_iff (x = y) (by simp)

instance {α : Type} [DecidableEq α] : DecidableEq (Res α) :=
  fun a b => decidable_of_iff (a.run = b.run) (by cases a; cases b; simp)

instance : Monad Res where
  pure a := ⟨some (Except.ok a)⟩
  bind x f :=
    match x.run with
    | none => ⟨none⟩
    | some (Except.error e) => ⟨some (Except.error e)⟩
    | some (Except.ok a) => f a

/-- A thrown CronError carrying its message. -/
def Res.err {α : Type} (e : String) : Res α := ⟨some (Except.error e)⟩

/-- Marker for an execution of the source that never terminates. -/
def Res.diverge {α : Type} : Res α := ⟨none⟩

/-- Helper of splitWS carrying the current token (reversed). -/
def splitWSAux : List Char → List Char → List (List Char)
  | [], acc => if acc.isEmpty then [] else [acc.reverse]
  | c :: rest, acc =>
    if c.isWhitespace then
      (if acc.isEmpty then splitWSAux rest [] else acc.reverse :: splitWSAux rest [])
    else splitWSAux rest (c :: acc)

/-- JavaScript trim followed by split on one-or-more whitespace: the
list of maximal nonempty runs of non-whitespace characters. -/
def splitWS (cs : List Char) : List (List Char) := splitWSAux cs []

/-- JavaScript String.split on a single separator character; empty
pieces are kept, and the empty string splits to one empty piece. -/
def splitOnChar (sep : Char) : List Char → List (List Char)
  | [] => [[]]
  | c :: rest =>
    if c == sep then [] :: splitOnChar sep rest
    else
      match splitOnChar sep rest with
      | [] => [[c]]
      | h :: t => (c :: h) :: t

/-- Value of a nonempty leading digit run, none when the first character
is not a digit. -/
def digitsVal (cs : List Char) : Option Nat :=
  let ds := cs.takeWhile Char.isDigit
  if ds.isEmpty then none
  else some (ds.foldl (fun a c => a * 10 + (c.toNat - 48)) 0)

/-- JavaScript parseInt with radix 10: skip leading whitespace, optional
sign, value of the leading digit run; none models NaN. -/
def parseIntJS (cs : List Char) : Option Int :=
  let cs := cs.dropWhile Char.isWhitespace
  match cs with
  | '-' :: rest => (digitsVal rest).map (fun n => -(n : Int))
  | '+' :: rest => (digitsVal rest).map (fun n => (n : Int))
  | _ => (digitsVal cs).map (fun n => (n : Int))

/-- Helper of replaceNames, structurally recursive on a fuel counter so
that the kernel can evaluate it; every step consumes at least one input
character, so the fuel in replaceNames is never exhausted and the fuel-0
arm is unreachable. -/
def replaceNamesAux (tbl : List (List Char × List Char)) : Nat → List Char → List Char
  | 0, cs => cs
  | _, [] => []
  | fuel + 1, c :: rest =>
    match tbl.find? (fun pr => pr.1.isPrefixOf (c :: rest)) with
    | some pr => pr.2 ++ replaceNamesAux tbl fuel (rest.drop (pr.1.length - 1))
    | none => c :: replaceNamesAux tbl fuel rest

/-- A regex global replace of a fixed alternation of literal patterns:
scan left to right, at each position try the patterns in table order,
on a match emit the replacement and resume after the matched text. -/
def replaceNames (tbl : List (List Char × List Char)) (cs : List Char) : List Char :=
  replaceNamesAux tbl cs.length cs

/-- Month name table of normalizeField, in source order. -/
def monthTable : List (List Char × List Char) :=
  [(['J','A','N'], ['1']), (['F','E','B'], ['2']), (['M','A','R'], ['3']),
   (['A','P','R'], ['4']), (['M','A','Y'], ['5']), (['J','U','N'], ['6']),
   (['J','U','L'], ['7']), (['A','U','G'], ['8']), (['S','E','P'], ['9']),
   (['O','C','T'], ['1','0']), (['N','O','V'], ['1','1']), (['D','E','C'], ['1','2'])]

/-- Weekday name table of normalizeField, in source order. -/
def dayTable : List (List Char × List Char) :=
  [(['S','U','N'], ['0']), (['M','O','N'], ['1']), (['T','U','E'], ['2']),
   (['W','E','D'], ['3']), (['T','H','U'], ['4']), (['F','R','I'], ['5']),
   (['S','A','T'], ['6'])]

/-- Field kind selector of normalizeField.  The day-of-month call site
passes a kind that matches neither branch, so only toUpperCase applies. -/
inductive FieldKind where
  | month
  | dayofweek
  | other
deriving DecidableEq

/-- normalizeField: uppercase, then for months replace month names with
numbers, for day-of-week replace day names and then every character 7
with 0 (the replace of slash-7-slash-g). -/
def normalizeField (cs : List Char) (k : FieldKind) : List Char :=
  let u := cs.map Char.toUpper
  match k with
  | FieldKind.month => replaceNames monthTable u
  | FieldKind.dayofweek =>
      (replaceNames dayTable u).map (fun c => if c == '7' then '0' else c)
  | FieldKind.other => u

/-- Array.from of the arithmetic sequence a, a+1, .., b (empty when
b < a, as Array.from with a clamped nonpositive length). -/
def intRange (a b : Int) : List Int :=
  (List.range (b - a + 1).toNat).map (fun i => a + (i : Int))

/-- Insert into a sorted list, ascending. -/
def insertSorted (x : Int) : List Int → List Int
  | [] => [x]
  | y :: t => if x ≤ y then x :: y :: t else y :: insertSorted x t

/-- JavaScript Array.sort with the numeric comparator (a, b) => a - b. -/
def sortInts (l : List Int) : List Int := l.foldr insertSorted []

/-- Helper of dedupFirst, structurally recursive on a fuel counter so
that the kernel can evaluate it; every step consumes one element and
filtering only shrinks the tail, so the fuel in dedupFirst is never
exhausted and the fuel-0 arm is unreachable. -/
def dedupFirstAux : Nat → List Int → List Int
  | 0, l => l
  | _, [] => []
  | fuel + 1, x :: t => x :: dedupFirstAux fuel (t.filter (fun v => v ≠ x))

/-- JavaScript filter of (v, i, arr) => arr.indexOf(v) === i: keep the
first occurrence of every value. -/
def dedupFirst (l : List Int) : List Int := dedupFirstAux l.length l

/-- Fuel bound of stepRange.  The source loop is unbounded; every
terminating in-domain execution performs at most max - min + 2 <= 131
iterations (the widest domain is years 1970..2099), so 256 never cuts a
terminating run short, while a nonpositive step exhausts the fuel and
yields none, marking the infinite loop of the source. -/
def stepFuel : Nat := 256

/-- The loop for (let i = start; i <= stop; i += step) collecting i,
with fuel; none models the nonterminating executions. -/
def stepRange : Nat → Int → Int → Int → Option (List Int)
  | 0, _, _, _ => none
  | fuel + 1, i, stop, step =>
    if i ≤ stop then (stepRange fuel (i + step) stop step).map (fun l => i :: l)
    else some []

/-- The step-loop values for a parsed step.  A none step models NaN
(parseInt failed): the source loop then runs exactly once when the
start bound holds, because start + NaN compares false with stop. -/
def stepValues (stepO : Option Int) (start stop : Int) : Res (List Int) :=
  match stepO with
  | some st =>
    match stepRange stepFuel start stop st with
    | none => Res.diverge
    | some l => pure l
  | none => pure (if start ≤ stop then [start] else [])

/-- Interface CronField of the source: an explicit value list and the
optional step.  A none step models both an absent step and a NaN step
(the source stores the NaN; it is only read by the translator). -/
structure CronField where
  values : List Int
  step : Option Int
deriving DecidableEq, Repr

/-- Interface DayOfMonthModifiers of the source. -/
structure DayOfMonthModifiers where
  lastDay : Bool
  lastDayOffset : Int
  lastWeekday : Bool
  nearestWeekday : Bool
deriving DecidableEq, Repr

/-- Interface DayOfWeekModifiers of the source. -/
structure DayOfWeekModifiers where
  nthDay : Int
  lastDay : Bool
deriving DecidableEq, Repr

/-- The parsed constraint model: the private fields of class CronParser
(the stored cron string and the timezone name are dropped; the model
fixes one zone throughout, see the header). -/
structure CronParser where
  seconds : CronField
  minutes : CronField
  hours : CronField
  daysOfMonth : CronField
  months : CronField
  daysOfWeek : CronField
  years : CronField
  dayOfMonthModifiers : DayOfMonthModifiers
  dayOfWeekModifiers : DayOfWeekModifiers
deriving DecidableEq, Repr

/-- The field initializers of class CronParser, before parse runs. -/
def CronParser.init : CronParser :=
  { seconds := ⟨[0], none⟩
    minutes := ⟨[], none⟩
    hours := ⟨[], none⟩
    daysOfMonth := ⟨[], none⟩
    months := ⟨[], none⟩
    daysOfWeek := ⟨[], none⟩
    years := ⟨[], none⟩
    dayOfMonthModifiers := ⟨false, 0, false, false⟩
    dayOfWeekModifiers := ⟨0, false⟩ }

/-- parseRange: split on the dash, parse the first two pieces, and
check the domain bounds and the orientation. -/
def parseRange (range : List Char) (minv maxv : Int) : Res (Int × Int) :=
  let parts := splitOnChar '-' range
  match parseIntJS (parts.headD []), parseIntJS (parts.getD 1 []) with
  | some s, some e =>
    if s < minv ∨ e > maxv ∨ s > e then
      Res.err (("Invalid range ") ++ String.mk range ++ (" for ") ++ toString minv ++ ("-") ++ toString maxv)
    else pure (s, e)
  | _, _ =>
    Res.err (("Invalid range ") ++ String.mk range ++ (" for ") ++ toString minv ++ ("-") ++ toString maxv)

/-- The comma-free, slash-free arms of parseField (star, dash range,
single value).  The recursive call of the source on the pieces of a
comma list can only reach these arms, because the slash branch was
already excluded and the split pieces carry no comma. -/
def parseFieldCore (field : List Char) (minv maxv : Int) : Res (List Int) :=
  if field = ['*'] then pure (intRange minv maxv)
  else if field.contains '-' then do
    let se ← parseRange field minv maxv
    pure (intRange se.1 se.2)
  else
    match parseIntJS field with
    | some n =>
      if n < minv ∨ n > maxv then
        Res.err (("Invalid value ") ++ String.mk field ++ (" for range ") ++ toString minv ++ ("-") ++ toString maxv)
      else pure [n]
    | none =>
      Res.err (("Invalid value ") ++ String.mk field ++ (" for range ") ++ toString minv ++ ("-") ++ toString maxv)

/-- Helper of the comma-and-step branch of parseField: flatMap of the
per-piece values (dash range or single value) over the comma pieces. -/
def parseSteppedListValues (ranges : List (List Char)) (minv maxv : Int) : Res (List Int) :=
  match ranges with
  | [] => pure []
  | r :: rest => do
    let vs ←
      (if r.contains '-' then do
        let se ← parseRange r minv maxv
        pure (intRange se.1 se.2)
      else
        match parseIntJS r with
        | some v =>
          if v < minv ∨ v > maxv then
            Res.err (("Invalid value ") ++ String.mk r ++ (" for range ") ++ toString minv ++ ("-") ++ toString maxv)
          else pure [v]
        | none =>
          Res.err (("Invalid value ") ++ String.mk r ++ (" for range ") ++ toString minv ++ ("-") ++ toString maxv))
    let tail ← parseSteppedListValues rest minv maxv
    pure (vs ++ tail)

/-- Helper of the comma branch of parseField: flatMap of the values of
the recursive parseField call over the comma pieces (which reduces to
parseFieldCore, see there). -/
def parseListValues (parts : List (List Char)) (minv maxv : Int) : Res (List Int) :=
  match parts with
  | [] => pure []
  | p :: rest => do
    let vs ← parseFieldCore p minv maxv
    let tail ← parseListValues rest minv maxv
    pure (vs ++ tail)

/-- parseField of the source: star, slash (with or without a comma
list on the left), comma list, dash range, single value. -/
def parseField (field : List Char) (minv maxv : Int) : Res CronField :=
  if field = ['*'] then pure ⟨intRange minv maxv, none⟩
  else if field.contains '/' then
    let parts := splitOnChar '/' field
    let rangeStr := parts.headD []
    let stepStr := parts.getD 1 []
    let stepO := parseIntJS stepStr
    if stepO = some 0 then Res.err (("Invalid step value in ") ++ String.mk field)
    else if rangeStr.contains ',' then do
      let values ← parseSteppedListValues (splitOnChar ',' rangeStr) minv maxv
      match values.head? with
      | none => pure ⟨[], stepO⟩
      | some v0 => do
        let stepped ← stepValues stepO v0 maxv
        pure ⟨sortInts (stepped.filter (fun i => values.contains i)), stepO⟩
    else do
      let se ← (if rangeStr = ['*'] then pure (minv, maxv) else parseRange rangeStr minv maxv)
      let vals ← stepValues stepO se.1 se.2
      pure ⟨vals, stepO⟩
  else if field.contains ',' then do
    let values ← parseListValues (splitOnChar ',' field) minv maxv
    pure ⟨sortInts (dedupFirst values), none⟩
  else do
    let vals ← parseFieldCore field minv maxv
    pure ⟨vals, none⟩

/-- maxDaysInMonth record of parseDayOfMonth (February entry 29, the
leap-year maximum). -/
def maxDaysTable (m : Int) : Int :=
  if m == 2 then 29
  else if m == 4 ∨ m == 6 ∨ m == 9 ∨ m == 11 then 30
  else 31

/-- English month names, as indexed by monthNames of the source. -/
def monthNameOf (m : Int) : String :=
  if m == 1 then ("January") else if m == 2 then ("February")
  else if m == 3 then ("March") else if m == 4 then ("April")
  else if m == 5 then ("May") else if m == 6 then ("June")
  else if m == 7 then ("July") else if m == 8 then ("August")
  else if m == 9 then ("September") else if m == 10 then ("October")
  else if m == 11 then ("November") else ("December")

/-- parseDayOfMonth of the source, threading the object state.  The
day-vs-month validation block runs against st.months as it is when this
function executes, exactly as in the source. -/
def parseDayOfMonth (field : List Char) (st : CronParser) : Res CronParser :=
  if field = ['?'] then pure st
  else
    let value := normalizeField field FieldKind.other
    if value.getLast? = some 'W' then
      let v := value.dropLast
      if v = ['L'] then
        pure { st with dayOfMonthModifiers := { st.dayOfMonthModifiers with lastWeekday := true } }
      else do
        let f ← parseField v 1 31
        pure { st with
               daysOfMonth := f
               dayOfMonthModifiers := { st.dayOfMonthModifiers with nearestWeekday := true } }
    else if ['L', '-'].isPrefixOf value then
      let off := (parseIntJS (value.drop 2)).getD 0
      pure { st with dayOfMonthModifiers :=
             { st.dayOfMonthModifiers with lastDay := true, lastDayOffset := off } }
    else if value = ['L'] then
      pure { st with dayOfMonthModifiers := { st.dayOfMonthModifiers with lastDay := true } }
    else do
      let f ← parseField value 1 31
      let st := { st with daysOfMonth := f }
      if ¬ f.values.isEmpty ∧ ¬ st.months.values.isEmpty then
        match f.values.findSome? (fun day =>
          st.months.values.findSome? (fun m =>
            if m == 2 ∧ day == 29 then none
            else if day > maxDaysTable m then some (day, m) else none)) with
        | some dm =>
          Res.err (("Invalid date: day ") ++ toString dm.1 ++ (" is not valid for month ") ++ monthNameOf dm.2)
        | none => pure st
      else pure st

/-- parseMonth of the source. -/
def parseMonth (field : List Char) (st : CronParser) : Res CronParser := do
  let f ← parseField (normalizeField field FieldKind.month) 1 12
  pure { st with months := f }

/-- parseDayOfWeek of the source.  A NaN nth value (malformed text
after the hash) is stored as 0, see the header. -/
def parseDayOfWeek (field : List Char) (st : CronParser) : Res CronParser :=
  if field = ['?'] then pure st
  else
    let field := normalizeField field FieldKind.dayofweek
    if field.getLast? = some 'L' then do
      let f ← parseField field.dropLast 0 6
      pure { st with
             daysOfWeek := f
             dayOfWeekModifiers := { st.dayOfWeekModifiers with lastDay := true } }
    else if field.contains '#' then
      let parts := splitOnChar '#' field
      let dayStr := parts.headD []
      let nStr := parts.getD 1 []
      match parseIntJS nStr with
      | some n =>
        if n < 1 ∨ n > 5 then Res.err ("Invalid nth value for day of week")
        else do
          let f ← parseField dayStr 0 6
          pure { st with
                 daysOfWeek := f
                 dayOfWeekModifiers := { st.dayOfWeekModifiers with nthDay := n } }
      | none => do
        let f ← parseField dayStr 0 6
        pure { st with
               daysOfWeek := f
               dayOfWeekModifiers := { st.dayOfWeekModifiers with nthDay := 0 } }
    else do
      let f ← parseField field 0 6
      pure { st with daysOfWeek := f }

/-- The raw-token wildcard test of the cross-field check in parse:
fields at position i is neither the question mark nor the star; an
absent token (index past the end, JavaScript undefined) also passes
the two inequality tests. -/
def notWildAt (fields : List (List Char)) (i : Nat) : Bool :=
  match fields.get? i with
  | some f => ¬ (f = ['?'] ∨ f = ['*'])
  | none => true

/-- parse of the source: field count check, the raw-index cross check
of positions 3 and 5, then the per-field parsers in source order
(day-of-month before month), and the year field only for 7 fields. -/
def parse (s : String) : Res CronParser :=
  let fields := splitWS s.data
  if fields.length < 5 ∨ fields.length > 7 then
    Res.err ("Invalid number of fields in cron string")
  else if notWildAt fields 3 ∧ notWildAt fields 5 then
    Res.err ("Both day-of-month and day-of-week cannot be specified unless one is * or ?")
  else
    let o : Nat := if fields.length > 5 then 1 else 0
    do
    let secs ← (if fields.length > 5 then parseField (fields.getD 0 []) 0 59
                else pure (⟨[0], none⟩ : CronField))
    let mins ← parseField (fields.getD o []) 0 59
    let hrs ← parseField (fields.getD (o + 1) []) 0 23
    let st0 := { CronParser.init with seconds := secs, minutes := mins, hours := hrs }
    let st1 ← parseDayOfMonth (fields.getD (o + 2) []) st0
    let st2 ← parseMonth (fields.getD (o + 3) []) st1
    let st3 ← parseDayOfWeek (fields.getD (o + 4) []) st2
    if fields.length = 7 then do
      let yrs ← parseField (fields.getD (o + 5) []) 1970 2099
      pure { st3 with years := yrs }
    else pure st3

/-- getNextValue of the source: the first value at least val, else the
first element; undefined (none) exactly when the list is empty. -/
def getNextValue (vals : List Int) (val : Int) : Option Int :=
  match vals.find? (fun v => val ≤ v) with
  | some r => some r
  | none => vals.head?

/-- getPreviousValue of the source: the last value at most val (find on
the reversed copy), else the last element; undefined exactly when the
list is empty. -/
def getPreviousValue (vals : List Int) (val : Int) : Option Int :=
  match vals.reverse.find? (fun v => v ≤ val) with
  | some r => some r
  | none => vals.getLast?

/-- Math.max over the year set, or 2099 when the set is empty, as
computed at the top of getNextFireTime. -/
def maxYearOf (p : CronParser) : Int :=
  match p.years.values.max? with
  | some m => m
  | none => 2099

/-- Math.min over the year set, or 1970 when the set is empty, as
computed at the top of getPreviousFireTime. -/
def minYearOf (p : CronParser) : Int :=
  match p.years.values.min? with
  | some m => m
  | none => 1970

/-- The backwards walk of isDayOfWeekSatisfied for the last-day-of-week
modifier: decrement the day while its weekday differs from the target
and the day exceeds 1.  The source loop is bounded by the month length;
the fuel 40 exceeds every month length. -/
def walkBackDow (y m : Int) : Nat → Int → Int → Int
  | 0, day, _ => day
  | fuel + 1, day, target =>
    if weekdayOf y m day % 7 ≠ target ∧ day > 1 then walkBackDow y m fuel (day - 1) target
    else day

/-- isDayOfWeekSatisfied of the source, on a valid DateTime.  When the
day-of-week value list is empty, the source compares numbers against
undefined, which fails: both modifier arms then return false. -/
def isDayOfWeekSatisfied (p : CronParser) (dt : DateTime) : Bool :=
  let dow := weekdayOf dt.year dt.month dt.day % 7
  if p.dayOfWeekModifiers.nthDay ≠ 0 then
    match p.daysOfWeek.values.head? with
    | none => false
    | some v =>
      if dow ≠ v then false
      else
        let week := (dt.day - 1) / 7 + 1
        week == p.dayOfWeekModifiers.nthDay && week ≤ 5
  else if p.dayOfWeekModifiers.lastDay then
    let ldom := daysInMonth dt.year dt.month
    match p.daysOfWeek.values.head? with
    | none => false
    | some target =>
      let td := walkBackDow dt.year dt.month 40 ldom target
      dt.day == td && weekdayOf dt.year dt.month td % 7 == target
  else
    p.daysOfWeek.values.isEmpty || p.daysOfWeek.values.contains dow

/-- getDayOfMonthSet of the source: the effective day set of a (year,
month) pair under the modifiers, the leap-year rule for February 29,
and the day-of-week filter when day-of-month is unconstrained.  The two
range checks mirror the invalidReason tests on DateTime.fromObject. -/
def getDayOfMonthSet (p : CronParser) (year month : Int) : List Int :=
  if month < 1 ∨ month > 12 then []
  else
    let ldom := daysInMonth year month
    if p.dayOfMonthModifiers.lastDay then
      let day := ldom - p.dayOfMonthModifiers.lastDayOffset
      if day ≥ 1 then [day] else []
    else if p.dayOfMonthModifiers.lastWeekday then
      let dow := weekdayOf year month ldom % 7
      let off := if dow == 6 then 1 else if dow == 0 then 2 else 0
      [ldom - off]
    else if p.dayOfMonthModifiers.nearestWeekday then
      let target := p.daysOfMonth.values.headD 1
      if target < 1 ∨ target > ldom then []
      else
        let dow := weekdayOf year month target % 7
        let c := if dow == 6 then target - 1 else if dow == 0 then target + 1 else target
        [max 1 (min ldom c)]
    else
      let allDays := intRange 1 ldom
      if p.daysOfMonth.values.isEmpty then
        if ¬ p.daysOfWeek.values.isEmpty ∨ p.dayOfWeekModifiers.nthDay ≠ 0
            ∨ p.dayOfWeekModifiers.lastDay then
          allDays.filter (fun day => isDayOfWeekSatisfied p ⟨year, month, day, 0, 0, 0⟩)
        else allDays
      else
        p.daysOfMonth.values.filter (fun d =>
          if month == 2 ∧ d == 29 then
            (if daysInMonth year 2 == 29 then d ≤ ldom else false)
          else d ≤ ldom)

/-- isMatch of the source: the full-constraint predicate over year,
month, effective day-of-month, day-of-week, hour, minute, second (the
early-return ladder written as a conjunction). -/
def isMatch (p : CronParser) (dt : DateTime) : Bool :=
  (p.years.values.isEmpty || p.years.values.contains dt.year)
  && (p.months.values.isEmpty || p.months.values.contains dt.month)
  && (getDayOfMonthSet p dt.year dt.month).contains dt.day
  && isDayOfWeekSatisfied p dt
  && (p.hours.values.isEmpty || p.hours.values.contains dt.hour)
  && (p.minutes.values.isEmpty || p.minutes.values.contains dt.minute)
  && (p.seconds.values.isEmpty || p.seconds.values.contains dt.second)

/-- The candidate value lists of the forward and backward walks: the
field value list when nonempty, else the full domain (Array.from over
the domain in the source).  The forward year list is built up to
maxYear, which equals 2099 exactly when the year set is empty, so the
two year lists coincide; both spellings are kept for fidelity. -/
def yearValuesFwd (p : CronParser) : List Int :=
  if p.years.values.isEmpty then intRange 1970 (maxYearOf p) else p.years.values

/-- The backward year candidate list (hardcoded 1970..2099 default). -/
def yearValuesBwd (p : CronParser) : List Int :=
  if p.years.values.isEmpty then intRange 1970 2099 else p.years.values

/-- The month candidate list. -/
def monthValuesOf (p : CronParser) : List Int :=
  if p.months.values.isEmpty then intRange 1 12 else p.months.values

/-- The hour candidate list. -/
def hourValuesOf (p : CronParser) : List Int :=
  if p.hours.values.isEmpty then intRange 0 23 else p.hours.values

/-- The minute candidate list. -/
def minuteValuesOf (p : CronParser) : List Int :=
  if p.minutes.values.isEmpty then intRange 0 59 else p.minutes.values

/-- The second candidate list. -/
def secondValuesOf (p : CronParser) : List Int :=
  if p.seconds.values.isEmpty then intRange 0 59 else p.seconds.values

/-!
The source duplicates the advance-to-next-year / advance-to-day /
advance-to-hour / advance-to-minute carry blocks verbatim inside the
empty-day-set branch and inside the hour, minute and second overflow
branches of getNextFireTime (and the descending mirrors inside
getPreviousFireTime).  The helpers below are those repeated blocks,
written once and applied at exactly the original points; rec stands
for the continue statement re-entering the while loop.
-/

/-- Forward carry into the next candidate year: null when the year list
is exhausted or the next year exceeds maxYear, else re-enter the loop
at the first candidate month, day 1, midnight. -/
def fwdCarryYear (p : CronParser) (rec : DateTime → Option DateTime) (fromYear : Int) :
    Option DateTime :=
  match getNextValue (yearValuesFwd p) (fromYear + 1) with
  | none => none
  | some ny =>
    if ny > maxYearOf p then none
    else rec ⟨ny, (monthValuesOf p).headD 0, 1, 0, 0, 0⟩

/-- Forward carry into the next candidate day of the month day set
(the forward walk escalates from day directly to year). -/
def fwdCarryDay (p : CronParser) (rec : DateTime → Option DateTime)
    (daySet : List Int) (nextYear nextMonth nextDay : Int) : Option DateTime :=
  match getNextValue daySet (nextDay + 1) with
  | none => fwdCarryYear p rec nextYear
  | some nd => rec ⟨nextYear, nextMonth, nd, 0, 0, 0⟩

/-- Forward carry into the next candidate hour. -/
def fwdCarryHour (p : CronParser) (rec : DateTime → Option DateTime)
    (daySet : List Int) (nextYear nextMonth nextDay nextHour : Int) : Option DateTime :=
  match getNextValue (hourValuesOf p) (nextHour + 1) with
  | none => fwdCarryDay p rec daySet nextYear nextMonth nextDay
  | some nh => rec ⟨nextYear, nextMonth, nextDay, nh, 0, 0⟩

/-- Forward carry into the next candidate minute. -/
def fwdCarryMinute (p : CronParser) (rec : DateTime → Option DateTime)
    (daySet : List Int) (nextYear nextMonth nextDay nextHour nextMinute : Int) :
    Option DateTime :=
  match getNextValue (minuteValuesOf p) (nextMinute + 1) with
  | none => fwdCarryHour p rec daySet nextYear nextMonth nextDay nextHour
  | some nm => rec ⟨nextYear, nextMonth, nextDay, nextHour, nm, 0⟩

/-- The second level of one forward iteration: pick the candidate
second (strictly after the reference second when nothing above
changed), carry to the minute on overflow, else run the final isMatch
check on the assembled candidate; rec is the continue statement. -/
def fwdSecondLevel (p : CronParser) (rec : DateTime → Option DateTime)
    (daySet : List Int) (nextYear nextMonth nextDay nextHour nextMinute : Int)
    (d : DateTime) (minuteChanged : Bool) : Option DateTime :=
  match (if minuteChanged then (secondValuesOf p).head?
         else match getNextValue (secondValuesOf p) (d.second + 1) with
              | some sv => some sv
              | none => (secondValuesOf p).head?) with
  | none => fwdCarryMinute p rec daySet nextYear nextMonth nextDay nextHour nextMinute
  | some nextSecond =>
    let cand : DateTime := ⟨nextYear, nextMonth, nextDay, nextHour, nextMinute, nextSecond⟩
    if isMatch p cand then some cand
    else rec (addSecond cand)

/-- The minute level of one forward iteration. -/
def fwdMinuteLevel (p : CronParser) (rec : DateTime → Option DateTime)
    (daySet : List Int) (nextYear nextMonth nextDay nextHour : Int)
    (d : DateTime) (hourChanged : Bool) : Option DateTime :=
  match (if hourChanged then (minuteValuesOf p).head?
         else match getNextValue (minuteValuesOf p) d.minute with
              | some mi => some mi
              | none => (minuteValuesOf p).head?) with
  | none => fwdCarryHour p rec daySet nextYear nextMonth nextDay nextHour
  | some nextMinute =>
    fwdSecondLevel p rec daySet nextYear nextMonth nextDay nextHour nextMinute d
      (nextMinute != d.minute || hourChanged)

/-- The hour level of one forward iteration. -/
def fwdHourLevel (p : CronParser) (rec : DateTime → Option DateTime)
    (daySet : List Int) (nextYear nextMonth nextDay : Int)
    (d : DateTime) (dayChanged : Bool) : Option DateTime :=
  match (if dayChanged then (hourValuesOf p).head?
         else match getNextValue (hourValuesOf p) d.hour with
              | some h => some h
              | none => (hourValuesOf p).head?) with
  | none => fwdCarryDay p rec daySet nextYear nextMonth nextDay
  | some nextHour =>
    fwdMinuteLevel p rec daySet nextYear nextMonth nextDay nextHour d
      (nextHour != d.hour || dayChanged)

/-- The day level of one forward iteration: the effective day set of
the candidate (year, month), the year advance when it is empty, else
the candidate day. -/
def fwdDayLevel (p : CronParser) (rec : DateTime → Option DateTime)
    (nextYear nextMonth : Int) (d : DateTime) (monthChanged : Bool) : Option DateTime :=
  let daySet := getDayOfMonthSet p nextYear nextMonth
  if daySet.isEmpty then fwdCarryYear p rec nextYear
  else
    let nextDay := if monthChanged then daySet.headD 0
                   else (getNextValue daySet d.day).getD (daySet.headD 0)
    fwdHourLevel p rec daySet nextYear nextMonth nextDay d
      (nextDay != d.day || monthChanged)

/-- One iteration of the while loop of getNextFireTime: the year test
of the loop head, the year and month candidates, then the day level;
rec is the continue statement re-entering the loop. -/
def nextStep (p : CronParser) (rec : DateTime → Option DateTime) (d : DateTime) :
    Option DateTime :=
  if d.year > maxYearOf p then none
  else
    match getNextValue (yearValuesFwd p) d.year with
    | none => none
    | some nextYear =>
      let yearChanged := nextYear != d.year
      let nextMonth := if yearChanged then (monthValuesOf p).headD 0
                       else (getNextValue (monthValuesOf p) d.month).getD ((monthValuesOf p).headD 0)
      fwdDayLevel p rec nextYear nextMonth d (nextMonth != d.month || yearChanged)

/-- One fuel unit per iteration of the while loop of getNextFireTime;
fuel exhaustion corresponds to the iter < maxIter loop condition. -/
def getNextFireTimeAux (p : CronParser) : Nat → DateTime → Option DateTime
  | 0, _ => none
  | fuel + 1, d => nextStep p (getNextFireTimeAux p fuel) d

/-- getNextFireTime of the source: the bounded forward walk from the
reference instant, maxIter = 10000. -/
def getNextFireTime (p : CronParser) (after : DateTime) : Option DateTime :=
  getNextFireTimeAux p 10000 after

/-- Backward carry into the previous candidate year: null when the year
list is exhausted or the previous year is below minYear, else re-enter
the loop at the last candidate month, its last day, 23:59:59. -/
def bwdCarryYear (p : CronParser) (rec : DateTime → Option DateTime) (fromYear : Int) :
    Option DateTime :=
  match getPreviousValue (yearValuesBwd p) (fromYear - 1) with
  | none => none
  | some py =>
    if py < minYearOf p then none
    else
      let pm := (monthValuesOf p).getLastD 0
      rec ⟨py, pm, daysInMonth py pm, 23, 59, 59⟩

/-- Backward carry into the previous candidate month. -/
def bwdCarryMonth (p : CronParser) (rec : DateTime → Option DateTime)
    (prevYear prevMonth : Int) : Option DateTime :=
  match getPreviousValue (monthValuesOf p) (prevMonth - 1) with
  | none => bwdCarryYear p rec prevYear
  | some pmv => rec ⟨prevYear, pmv, daysInMonth prevYear pmv, 23, 59, 59⟩

/-- Backward carry into the previous candidate day. -/
def bwdCarryDay (p : CronParser) (rec : DateTime → Option DateTime)
    (daySet : List Int) (prevYear prevMonth prevDay : Int) : Option DateTime :=
  match getPreviousValue daySet (prevDay - 1) with
  | none => bwdCarryMonth p rec prevYear prevMonth
  | some pd => rec ⟨prevYear, prevMonth, pd, 23, 59, 59⟩

/-- Backward carry into the previous candidate hour. -/
def bwdCarryHour (p : CronParser) (rec : DateTime → Option DateTime)
    (daySet : List Int) (prevYear prevMonth prevDay prevHour : Int) : Option DateTime :=
  match getPreviousValue (hourValuesOf p) (prevHour - 1) with
  | none => bwdCarryDay p rec daySet prevYear prevMonth prevDay
  | some ph => rec ⟨prevYear, prevMonth, prevDay, ph, 59, 59⟩

/-- Backward carry into the previous candidate minute. -/
def bwdCarryMinute (p : CronParser) (rec : DateTime → Option DateTime)
    (daySet : List Int) (prevYear prevMonth prevDay prevHour prevMinute : Int) :
    Option DateTime :=
  match getPreviousValue (minuteValuesOf p) (prevMinute - 1) with
  | none => bwdCarryHour p rec daySet prevYear prevMonth prevDay prevHour
  | some pm2 => rec ⟨prevYear, prevMonth, prevDay, prevHour, pm2, 59⟩

/-- The second level of one backward iteration. -/
def bwdSecondLevel (p : CronParser) (rec : DateTime → Option DateTime)
    (daySet : List Int) (prevYear prevMonth prevDay prevHour prevMinute : Int)
    (d : DateTime) (minuteChanged : Bool) : Option DateTime :=
  match (if minuteChanged then (secondValuesOf p).getLast?
         else match getPreviousValue (secondValuesOf p) d.second with
              | some sv => some sv
              | none => (secondValuesOf p).getLast?) with
  | none => bwdCarryMinute p rec daySet prevYear prevMonth prevDay prevHour prevMinute
  | some prevSecond =>
    let cand : DateTime := ⟨prevYear, prevMonth, prevDay, prevHour, prevMinute, prevSecond⟩
    if isMatch p cand then some cand
    else rec (subSecond cand)

/-- The minute level of one backward iteration. -/
def bwdMinuteLevel (p : CronParser) (rec : DateTime → Option DateTime)
    (daySet : List Int) (prevYear prevMonth prevDay prevHour : Int)
    (d : DateTime) (hourChanged : Bool) : Option DateTime :=
  match (if hourChanged then (minuteValuesOf p).getLast?
         else match getPreviousValue (minuteValuesOf p) d.minute with
              | some mi => some mi
              | none => (minuteValuesOf p).getLast?) with
  | none => bwdCarryHour p rec daySet prevYear prevMonth prevDay prevHour
  | some prevMinute =>
    bwdSecondLevel p rec daySet prevYear prevMonth prevDay prevHour prevMinute d
      (decide (prevMinute < d.minute) || hourChanged)

/-- The hour level of one backward iteration. -/
def bwdHourLevel (p : CronParser) (rec : DateTime → Option DateTime)
    (daySet : List Int) (prevYear prevMonth prevDay : Int)
    (d : DateTime) (dayChanged : Bool) : Option DateTime :=
  match (if dayChanged then (hourValuesOf p).getLast?
         else match getPreviousValue (hourValuesOf p) d.hour with
              | some h => some h
              | none => (hourValuesOf p).getLast?) with
  | none => bwdCarryDay p rec daySet prevYear prevMonth prevDay
  | some prevHour =>
    bwdMinuteLevel p rec daySet prevYear prevMonth prevDay prevHour d
      (decide (prevHour < d.hour) || dayChanged)

/-- The day level of one backward iteration. -/
def bwdDayLevel (p : CronParser) (rec : DateTime → Option DateTime)
    (prevYear prevMonth : Int) (d : DateTime) (monthChanged : Bool) : Option DateTime :=
  let daySet := getDayOfMonthSet p prevYear prevMonth
  if daySet.isEmpty then bwdCarryYear p rec prevYear
  else
    let prevDay := if monthChanged then daySet.getLastD 0
                   else (getPreviousValue daySet d.day).getD (daySet.getLastD 0)
    bwdHourLevel p rec daySet prevYear prevMonth prevDay d
      (decide (prevDay < d.day) || monthChanged)

/-- One iteration of the while loop of getPreviousFireTime, the
descending mirror of nextStep (strict less-than change tests, last
elements as resets, descending carries through month). -/
def prevStep (p : CronParser) (rec : DateTime → Option DateTime) (d : DateTime) :
    Option DateTime :=
  if d.year < minYearOf p then none
  else
    match getPreviousValue (yearValuesBwd p) d.year with
    | none => none
    | some prevYear =>
      let yearChanged := decide (prevYear < d.year)
      let prevMonth := if yearChanged then (monthValuesOf p).getLastD 0
                       else (getPreviousValue (monthValuesOf p) d.month).getD ((monthValuesOf p).getLastD 0)
      bwdDayLevel p rec prevYear prevMonth d (decide (prevMonth < d.month) || yearChanged)

/-- One fuel unit per iteration of the while loop of
getPreviousFireTime. -/
def getPreviousFireTimeAux (p : CronParser) : Nat → DateTime → Option DateTime
  | 0, _ => none
  | fuel + 1, d => prevStep p (getPreviousFireTimeAux p fuel) d

/-- getPreviousFireTime of the source: shift the reference one second
back (minus seconds 1, endOf second) and run the bounded backward walk,
maxIter = 10000. -/
def getPreviousFireTime (p : CronParser) (before : DateTime) : Option DateTime :=
  getPreviousFireTimeAux p 10000 (subSecond before)

/-- Public next of the source: the epoch seconds of the forward search
result, or the thrown CronError when the search returns null. -/
def next (p : CronParser) (dtFrom : DateTime) : Except String Int :=
  match getNextFireTime p dtFrom with
  | none => Except.error ("No next execution time found")
  | some dt => Except.ok (epochOf dt)

/-- Public previous of the source: the epoch seconds of the backward
search result, or the thrown CronError when the search returns null. -/
def previous (p : CronParser) (dtFrom : DateTime) : Except String Int :=
  match getPreviousFireTime p dtFrom with
  | none => Except.error ("No previous execution time found")
  | some dt => Except.ok (epochOf dt)

/-- Parsed model of the five-field expression 0 star star star star
(every hour at minute 0, second 0). -/
def hourlySched : CronParser :=
  { seconds := ⟨[0], none⟩
    minutes := ⟨[0], none⟩
    hours := ⟨intRange 0 23, none⟩
    daysOfMonth := ⟨intRange 1 31, none⟩
    months := ⟨intRange 1 12, none⟩
    daysOfWeek := ⟨intRange 0 6, none⟩
    years := ⟨[], none⟩
    dayOfMonthModifiers := ⟨false, 0, false, false⟩
    dayOfWeekModifiers := ⟨0, false⟩ }

/-- Parsed model of 0 0 0 26 star question-mark (midnight on the 26th
of every month). -/
def dom26Sched : CronParser :=
  { seconds := ⟨[0], none⟩
    minutes := ⟨[0], none⟩
    hours := ⟨[0], none⟩
    daysOfMonth := ⟨[26], none⟩
    months := ⟨intRange 1 12, none⟩
    daysOfWeek := ⟨[], none⟩
    years := ⟨[], none⟩
    dayOfMonthModifiers := ⟨false, 0, false, false⟩
    dayOfWeekModifiers := ⟨0, false⟩ }

/-- Parsed model of 0 0 0 29 FEB question-mark (midnight on February
29). -/
def feb29Sched : CronParser :=
  { seconds := ⟨[0], none⟩
    minutes := ⟨[0], none⟩
    hours := ⟨[0], none⟩
    daysOfMonth := ⟨[29], none⟩
    months := ⟨[2], none⟩
    daysOfWeek := ⟨[], none⟩
    years := ⟨[], none⟩
    dayOfMonthModifiers := ⟨false, 0, false, false⟩
    dayOfWeekModifiers := ⟨0, false⟩ }

/-- Parsed model of 0 0 0 26W star question-mark (midnight on the
nearest weekday to the 26th). -/
def w26Sched : CronParser :=
  { seconds := ⟨[0], none⟩
    minutes := ⟨[0], none⟩
    hours := ⟨[0], none⟩
    daysOfMonth := ⟨[26], none⟩
    months := ⟨intRange 1 12, none⟩
    daysOfWeek := ⟨[], none⟩
    years := ⟨[], none⟩
    dayOfMonthModifiers := ⟨false, 0, false, true⟩
    dayOfWeekModifiers := ⟨0, false⟩ }

/-- Parsed model of the five-field expression 0 0 1 star 1,2, which
carries an explicit day-of-month set and an explicit day-of-week set at
the same time. -/
def fiveFieldBothSched : CronParser :=
  { seconds := ⟨[0], none⟩
    minutes := ⟨[0], none⟩
    hours := ⟨[0], none⟩
    daysOfMonth := ⟨[1], none⟩
    months := ⟨intRange 1 12, none⟩
    daysOfWeek := ⟨[1, 2], none⟩
    years := ⟨[], none⟩
    dayOfMonthModifiers := ⟨false, 0, false, false⟩
    dayOfWeekModifiers := ⟨0, false⟩ }

/-!
Theorems.  The helper lemmas below establish that every instant the
search returns has passed the final isMatch check; they follow the
call structure of the step functions.
-/

set_option maxRecDepth 8000


theorem fwdCarryYear_isMatch (p : CronParser) (rec : DateTime → Option DateTime)
    (hrec : ∀ d r, rec d = some r → isMatch p r = true) (y : Int) (r : DateTime)
    (h : fwdCarryYear p rec y = some r) : isMatch p r = true := by
  simp only [fwdCarryYear] at h
  repeat' split at h
  all_goals first
    | exact Option.noConfusion h
    | exact hrec _ _ h

theorem fwdCarryDay_isMatch (p : CronParser) (rec : DateTime → Option DateTime)
    (hrec : ∀ d r, rec d = some r → isMatch p r = true) (ds : List Int) (a b c : Int)
    (r : DateTime) (h : fwdCarryDay p rec ds a b c = some r) : isMatch p r = true := by
  simp only [fwdCarryDay] at h
  repeat' split at h
  all_goals first
    | exact hrec _ _ h
    | exact fwdCarryYear_isMatch p rec hrec _ _ h

theorem fwdCarryHour_isMatch (p : CronParser) (rec : DateTime → Option DateTime)
    (hrec : ∀ d r, rec d = some r → isMatch p r = true) (ds : List Int) (a b c e : Int)
    (r : DateTime) (h : fwdCarryHour p rec ds a b c e = some r) : isMatch p r = true := by
  simp only [fwdCarryHour] at h
  repeat' split at h
  all_goals first
    | exact hrec _ _ h
    | exact fwdCarryDay_isMatch p rec hrec _ _ _ _ _ h

theorem fwdCarryMinute_isMatch (p : CronParser) (rec : DateTime → Option DateTime)
    (hrec : ∀ d r, rec d = some r → isMatch p r = true) (ds : List Int) (a b c e f : Int)
    (r : DateTime) (h : fwdCarryMinute p rec ds a b c e f = some r) : isMatch p r = true := by
  simp only [fwdCarryMinute] at h
  repeat' split at h
  all_goals first
    | exact hrec _ _ h
    | exact fwdCarryHour_isMatch p rec hrec _ _ _ _ _ _ h

theorem fwdSecondLevel_isMatch (p : CronParser) (rec : DateTime → Option DateTime)
    (hrec : ∀ d r, rec d = some r → isMatch p r = true) (ds : List Int)
    (a b c e f : Int) (d : DateTime) (mc : Bool) (r : DateTime)
    (h : fwdSecondLevel p rec ds a b c e f d mc = some r) : isMatch p r = true := by
  simp only [fwdSecondLevel] at h
  repeat' split at h
  all_goals first
    | exact hrec _ _ h
    | exact fwdCarryMinute_isMatch p rec hrec _ _ _ _ _ _ _ h
    | (injection h with h2; subst h2; assumption)

theorem fwdMinuteLevel_isMatch (p : CronParser) (rec : DateTime → Option DateTime)
    (hrec : ∀ d r, rec d = some r → isMatch p r = true) (ds : List Int)
    (a b c e : Int) (d : DateTime) (hc : Bool) (r : DateTime)
    (h : fwdMinuteLevel p rec ds a b c e d hc = some r) : isMatch p r = true := by
  simp only [fwdMinuteLevel] at h
  repeat' split at h
  all_goals first
    | exact fwdSecondLevel_isMatch p rec hrec _ _ _ _ _ _ _ _ _ h
    | exact fwdCarryHour_isMatch p rec hrec _ _ _ _ _ _ h

theorem fwdHourLevel_isMatch (p : CronParser) (rec : DateTime → Option DateTime)
    (hrec : ∀ d r, rec d = some r → isMatch p r = true) (ds : List Int)
    (a b c : Int) (d : DateTime) (dc : Bool) (r : DateTime)
    (h : fwdHourLevel p rec ds a b c d dc = some r) : isMatch p r = true := by
  simp only [fwdHourLevel] at h
  repeat' split at h
  all_goals first
    | exact fwdMinuteLevel_isMatch p rec hrec _ _ _ _ _ _ _ _ h
    | exact fwdCarryDay_isMatch p rec hrec _ _ _ _ _ h

theorem fwdDayLevel_isMatch (p : CronParser) (rec : DateTime → Option DateTime)
    (hrec : ∀ d r, rec d = some r → isMatch p r = true)
    (a b : Int) (d : DateTime) (mc : Bool) (r : DateTime)
    (h : fwdDayLevel p rec a b d mc = some r) : isMatch p r = true := by
  simp only [fwdDayLevel] at h
  repeat' split at h
  all_goals first
    | exact fwdHourLevel_isMatch p rec hrec _ _ _ _ _ _ _ h
    | exact fwdCarryYear_isMatch p rec hrec _ _ h

theorem nextStep_isMatch (p : CronParser) (rec : DateTime → Option DateTime)
    (hrec : ∀ d r, rec d = some r → isMatch p r = true) (d : DateTime) (r : DateTime)
    (h : nextStep p rec d = some r) : isMatch p r = true := by
  simp only [nextStep] at h
  repeat' split at h
  all_goals first
    | exact Option.noConfusion h
    | exact fwdDayLevel_isMatch p rec hrec _ _ _ _ _ h

theorem nextAux_isMatch (p : CronParser) :
    ∀ (fuel : Nat) (d r : DateTime),
      getNextFireTimeAux p fuel d = some r → isMatch p r = true := by
  intro fuel
  induction fuel with
  | zero => intro d r h; exact Option.noConfusion h
  | succ n ih =>
    intro d r h
    exact nextStep_isMatch p (getNextFireTimeAux p n) ih d r h



theorem bwdCarryYear_isMatch (p : CronParser) (rec : DateTime → Option DateTime)
    (hrec : ∀ d r, rec d = some r → isMatch p r = true) (y : Int) (r : DateTime)
    (h : bwdCarryYear p rec y = some r) : isMatch p r = true := by
  simp only [bwdCarryYear] at h
  repeat' split at h
  all_goals first
    | exact Option.noConfusion h
    | exact hrec _ _ h

theorem bwdCarryMonth_isMatch (p : CronParser) (rec : DateTime → Option DateTime)
    (hrec : ∀ d r, rec d = some r → isMatch p r = true) (a b : Int) (r : DateTime)
    (h : bwdCarryMonth p rec a b = some r) : isMatch p r = true := by
  simp only [bwdCarryMonth] at h
  repeat' split at h
  all_goals first
    | exact hrec _ _ h
    | exact bwdCarryYear_isMatch p rec hrec _ _ h

theorem bwdCarryDay_isMatch (p : CronParser) (rec : DateTime → Option DateTime)
    (hrec : ∀ d r, rec d = some r → isMatch p r = true) (ds : List Int) (a b c : Int)
    (r : DateTime) (h : bwdCarryDay p rec ds a b c = some r) : isMatch p r = true := by
  simp only [bwdCarryDay] at h
  repeat' split at h
  all_goals first
    | exact hrec _ _ h
    | exact bwdCarryMonth_isMatch p rec hrec _ _ _ h

theorem bwdCarryHour_isMatch (p : CronParser) (rec : DateTime → Option DateTime)
    (hrec : ∀ d r, rec d = some r → isMatch p r = true) (ds : List Int) (a b c e : Int)
    (r : DateTime) (h : bwdCarryHour p rec ds a b c e = some r) : isMatch p r = true := by
  simp only [bwdCarryHour] at h
  repeat' split at h
  all_goals first
    | exact hrec _ _ h
    | exact bwdCarryDay_isMatch p rec hrec _ _ _ _ _ h

theorem bwdCarryMinute_isMatch (p : CronParser) (rec : DateTime → Option DateTime)
    (hrec : ∀ d r, rec d = some r → isMatch p r = true) (ds : List Int) (a b c e f : Int)
    (r : DateTime) (h : bwdCarryMinute p rec ds a b c e f = some r) : isMatch p r = true := by
  simp only [bwdCarryMinute] at h
  repeat' split at h
  all_goals first
    | exact hrec _ _ h
    | exact bwdCarryHour_isMatch p rec hrec _ _ _ _ _ _ h

theorem bwdSecondLevel_isMatch (p : CronParser) (rec : DateTime → Option DateTime)
    (hrec : ∀ d r, rec d = some r → isMatch p r = true) (ds : List Int)
    (a b c e f : Int) (d : DateTime) (mc : Bool) (r : DateTime)
    (h : bwdSecondLevel p rec ds a b c e f d mc = some r) : isMatch p r = true := by
  simp only [bwdSecondLevel] at h
  repeat' split at h
  all_goals first
    | exact hrec _ _ h
    | exact bwdCarryMinute_isMatch p rec hrec _ _ _ _ _ _ _ h
    | (injection h with h2; subst h2; assumption)

theorem bwdMinuteLevel_isMatch (p : CronParser) (rec : DateTime → Option DateTime)
    (hrec : ∀ d r, rec d = some r → isMatch p r = true) (ds : List Int)
    (a b c e : Int) (d : DateTime) (hc : Bool) (r : DateTime)
    (h : bwdMinuteLevel p rec ds a b c e d hc = some r) : isMatch p r = true := by
  simp only [bwdMinuteLevel] at h
  repeat' split at h
  all_goals first
    | exact bwdSecondLevel_isMatch p rec hrec _ _ _ _ _ _ _ _ _ h
    | exact bwdCarryHour_isMatch p rec hrec _ _ _ _ _ _ h

theorem bwdHourLevel_isMatch (p : CronParser) (rec : DateTime → Option DateTime)
    (hrec : ∀ d r, rec d = some r → isMatch p r = true) (ds : List Int)
    (a b c : Int) (d : DateTime) (dc : Bool) (r : DateTime)
    (h : bwdHourLevel p rec ds a b c d dc = some r) : isMatch p r = true := by
  simp only [bwdHourLevel] at h
  repeat' split at h
  all_goals first
    | exact bwdMinuteLevel_isMatch p rec hrec _ _ _ _ _ _ _ _ h
    | exact bwdCarryDay_isMatch p rec hrec _ _ _ _ _ h

theorem bwdDayLevel_isMatch (p : CronParser) (rec : DateTime → Option DateTime)
    (hrec : ∀ d r, rec d = some r → isMatch p r = true)
    (a b : Int) (d : DateTime) (mc : Bool) (r : DateTime)
    (h : bwdDayLevel p rec a b d mc = some r) : isMatch p r = true := by
  simp only [bwdDayLevel] at h
  repeat' split at h
  all_goals first
    | exact bwdHourLevel_isMatch p rec hrec _ _ _ _ _ _ _ h
    | exact bwdCarryYear_isMatch p rec hrec _ _ h

theorem prevStep_isMatch (p : CronParser) (rec : DateTime → Option DateTime)
    (hrec : ∀ d r, rec d = some r → isMatch p r = true) (d : DateTime) (r : DateTime)
    (h : prevStep p rec d = some r) : isMatch p r = true := by
  simp only [prevStep] at h
  repeat' split at h
  all_goals first
    | exact Option.noConfusion h
    | exact bwdDayLevel_isMatch p rec hrec _ _ _ _ _ h

theorem prevAux_isMatch (p : CronParser) :
    ∀ (fuel : Nat) (d r : DateTime),
      getPreviousFireTimeAux p fuel d = some r → isMatch p r = true := by
  intro fuel
  induction fuel with
  | zero => intro d r h; exact Option.noConfusion h
  | succ n ih =>
    intro d r h
    exact prevStep_isMatch p (getPreviousFireTimeAux p n) ih d r h


/-- Claim C1: whenever the forward search (getNextFireTime, the engine
behind next) returns an instant, that instant satisfies every field
constraint of the schedule (year, month, effective day-of-month after
modifier and leap-year resolution, day-of-week, hour, minute, second)
as checked by the full-constraint predicate isMatch; the same holds for
the backward search (getPreviousFireTime, behind previous). -/
theorem claim_C1_search_results_satisfy_isMatch (p : CronParser) (d r : DateTime) :
    (getNextFireTime p d = some r → isMatch p r = true) ∧
    (getPreviousFireTime p d = some r → isMatch p r = true) :=
  ⟨fun h => nextAux_isMatch p 10000 d r h,
   fun h => prevAux_isMatch p 10000 (subSecond d) r h⟩

/-- Witness for C1: the February-29 schedule searched from
2025-09-28T12:00:00 in both directions. -/
theorem claim_C1_witness :
    isMatch feb29Sched ⟨2028, 2, 29, 0, 0, 0⟩ = true ∧
    isMatch feb29Sched ⟨2024, 2, 29, 0, 0, 0⟩ = true :=
  ⟨(claim_C1_search_results_satisfy_isMatch feb29Sched ⟨2025, 9, 28, 12, 0, 0⟩
      ⟨2028, 2, 29, 0, 0, 0⟩).1 (by rfl),
   (claim_C1_search_results_satisfy_isMatch feb29Sched ⟨2025, 9, 28, 12, 0, 0⟩
      ⟨2024, 2, 29, 0, 0, 0⟩).2 (by rfl)⟩

/-- Claim C2 (refuted by the code): evaluation at the failing inputs.
The schedule of 0 star star star star matches the reference instant
2025-09-28T12:00:00Z itself (epoch 1759060800), and next returns that
very epoch instead of a strictly greater one, because getNextValue
wraps to the first list element without signalling the overflow; the
repo test suite expects 1759064400 here.  Symmetrically previous on
0 0 0 26 star question-mark from 2025-09-10T12:00:00Z (epoch
1757505600) returns 1758844800, which lies in the future. -/
theorem claim_C2_next_not_strictly_greater :
    parse ("0 * * * *") = pure hourlySched ∧
    epochOf ⟨2025, 9, 28, 12, 0, 0⟩ = 1759060800 ∧
    isMatch hourlySched ⟨2025, 9, 28, 12, 0, 0⟩ = true ∧
    next hourlySched ⟨2025, 9, 28, 12, 0, 0⟩ = Except.ok 1759060800 ∧
    parse ("0 0 0 26 * ?") = pure dom26Sched ∧
    epochOf ⟨2025, 9, 10, 12, 0, 0⟩ = 1757505600 ∧
    previous dom26Sched ⟨2025, 9, 10, 12, 0, 0⟩ = Except.ok 1758844800 :=
  ⟨rfl, rfl, rfl, rfl, rfl, rfl, rfl⟩

/-- Claim C4 (refuted by the code): construction of impossible
day-for-month combinations succeeds.  The day-vs-month validation block
of parseDayOfMonth runs before parseMonth has executed, so the month
set it iterates over is still empty and the check never fires; the repo
test expects 0 0 0 31 FEB question-mark to throw. -/
theorem claim_C4_impossible_date_accepted :
    (∃ q, parse ("0 0 0 31 FEB ?") = pure q ∧
          q.daysOfMonth.values = [31] ∧ q.months.values = [2]) ∧
    (∃ q, parse ("0 0 0 30 2 ?") = pure q) ∧
    (∃ q, parse ("0 0 0 31 4 ?") = pure q) :=
  ⟨⟨_, rfl, rfl, rfl⟩, ⟨_, rfl⟩, ⟨_, rfl⟩⟩

/-- Claim C5: the schedule with day-of-month 29 and month February
fires only in leap years.  The effective day set of February is empty
in the non-leap years 2025, 2026, 2027 and is the singleton 29 in the
leap years 2024 and 2028, so the forward search from
2025-09-28T12:00:00Z skips to 2028-02-29T00:00:00Z (epoch 1835395200)
and the backward search reaches 2024-02-29T00:00:00Z (epoch
1709164800). -/
theorem claim_C5_feb29_leap_year_search :
    parse ("0 0 0 29 FEB ?") = pure feb29Sched ∧
    getDayOfMonthSet feb29Sched 2025 2 = [] ∧
    getDayOfMonthSet feb29Sched 2026 2 = [] ∧
    getDayOfMonthSet feb29Sched 2027 2 = [] ∧
    getDayOfMonthSet feb29Sched 2028 2 = [29] ∧
    getDayOfMonthSet feb29Sched 2024 2 = [29] ∧
    getNextFireTime feb29Sched ⟨2025, 9, 28, 12, 0, 0⟩ = some ⟨2028, 2, 29, 0, 0, 0⟩ ∧
    next feb29Sched ⟨2025, 9, 28, 12, 0, 0⟩ = Except.ok 1835395200 ∧
    getPreviousFireTime feb29Sched ⟨2025, 9, 28, 12, 0, 0⟩ = some ⟨2024, 2, 29, 0, 0, 0⟩ ∧
    previous feb29Sched ⟨2025, 9, 28, 12, 0, 0⟩ = Except.ok 1709164800 :=
  ⟨rfl, rfl, rfl, rfl, rfl, rfl, rfl, rfl, rfl, rfl⟩

/-- Claim C8 (refuted by the code): the per-month nearest-weekday
resolution is as claimed (2025-09-26 is a Friday and maps to itself,
2025-07-26 is a Saturday and maps to the preceding Friday 25,
2025-10-26 is a Sunday and maps to the following Monday 27), but the
forward search of 26W from 2025-09-28T12:00:00Z returns the past
instant 2025-09-26T00:00:00Z (epoch 1758844800) instead of the claimed
2025-10-27 (epoch 1761523200), because the day wrap in getNextValue is
not carried into the month; the repo test expects 1761523200. -/
theorem claim_C8_nearest_weekday :
    parse ("0 0 0 26W * ?") = pure w26Sched ∧
    getDayOfMonthSet w26Sched 2025 9 = [26] ∧
    getDayOfMonthSet w26Sched 2025 7 = [25] ∧
    getDayOfMonthSet w26Sched 2025 10 = [27] ∧
    epochOf ⟨2025, 10, 27, 0, 0, 0⟩ = 1761523200 ∧
    epochOf ⟨2025, 9, 26, 0, 0, 0⟩ = 1758844800 ∧
    next w26Sched ⟨2025, 9, 28, 12, 0, 0⟩ = Except.ok 1758844800 :=
  ⟨rfl, rfl, rfl, rfl, rfl, rfl, rfl⟩

/-- Claim C7 counterexample: a negative step is not rejected at parse
time.  Construction with the minutes field 0-59 step -1 neither succeeds nor
throws: the value-collection loop of parseField never terminates (run =
none is the divergence marker of the model). -/
theorem claim_C7_counterexample :
    (parse ("0 0-59/-1 * * * ?")).run = none ∧
    (parseField (['0', '-', '5', '9', '/', '-', '1']) 0 59).run = none :=
  ⟨rfl, rfl⟩

/-- Claim C3 counterexample: the five-field expression 0 0 1 star 1,2
carries an explicit day-of-month set [1] and an explicit day-of-week
set [1, 2], neither field uses a modifier, yet construction succeeds
instead of failing with the conflict error: the cross check of parse
reads raw token positions 3 and 5, which in a five-field expression are
the month field and a position past the end. -/
theorem claim_C3_counterexample :
    parse ("0 0 1 * 1,2") = pure fiveFieldBothSched ∧
    fiveFieldBothSched.daysOfMonth.values = [1] ∧
    fiveFieldBothSched.daysOfWeek.values = [1, 2] ∧
    fiveFieldBothSched.dayOfMonthModifiers = ⟨false, 0, false, false⟩ ∧
    fiveFieldBothSched.dayOfWeekModifiers = ⟨0, false⟩ :=
  ⟨rfl, rfl, rfl, rfl, rfl⟩

/-- Claim C3 as amended: the conflict check fires exactly on the raw
whitespace tokens at positions 3 and 5; for 6- and 7-field expressions
those are day-of-month and day-of-week, so any such expression with
both tokens non-wildcard fails with the conflict message (in particular
0 0 0 1 star 1,2 and its 7-field extension), but for a 5-field
expression position 3 is the month and position 5 is absent, so
five-field expressions with both day fields explicit are accepted. -/
theorem claim_C3_amended (s : String) :
    (5 ≤ (splitWS s.data).length → (splitWS s.data).length ≤ 7 →
      notWildAt (splitWS s.data) 3 = true → notWildAt (splitWS s.data) 5 = true →
      parse s = Res.err ("Both day-of-month and day-of-week cannot be specified unless one is * or ?")) ∧
    parse ("0 0 0 1 * 1,2") =
      Res.err ("Both day-of-month and day-of-week cannot be specified unless one is * or ?") ∧
    parse ("0 0 0 1 * 1,2 2025") =
      Res.err ("Both day-of-month and day-of-week cannot be specified unless one is * or ?") ∧
    parse ("0 0 1 * 1,2") = pure fiveFieldBothSched := by
  refine ⟨?_, rfl, rfl, rfl⟩
  intro h5 h7 h3 hw5
  have hA : ¬((splitWS s.data).length < 5 ∨ (splitWS s.data).length > 7) := by omega
  simp only [parse, if_neg hA, h3, hw5, and_self, if_true]

/-- Witness for the amended claim C3 at the six-field conflict input. -/
theorem claim_C3_witness :
    parse ("59 59 23 1 * 1,2") =
      Res.err ("Both day-of-month and day-of-week cannot be specified unless one is * or ?") :=
  (claim_C3_amended ("59 59 23 1 * 1,2")).1 (by decide) (by decide) (by decide) (by decide)

/-- Claim C7 as amended: a step spelled 0 is rejected at parse time
with the step error (the check of parseField tests step strictly equal
to 0), but a negative step is not rejected: the value-collection loop
then never terminates, so construction neither succeeds nor reports any
error (run = none marks the nonterminating execution).  The first part
is stated for every field whose text after the slash parses to 0. -/
theorem claim_C7_amended (f : List Char) (minv maxv : Int) :
    (f.contains '/' = true →
      parseIntJS ((splitOnChar '/' f).getD 1 []) = some 0 →
      parseField f minv maxv = Res.err (("Invalid step value in ") ++ String.mk f)) ∧
    parse ("0 */0 * * * ?") = Res.err ("Invalid step value in */0") ∧
    (parse ("0 0-59/-1 * * * ?")).run = none := by
  refine ⟨?_, rfl, rfl⟩
  intro hc hs
  have hne : ¬(f = ['*']) := by
    intro he
    rw [he] at hc
    exact absurd hc (by decide)
  simp only [parseField, if_neg hne, hc, if_true, hs, if_pos rfl]

/-- Witness for the amended claim C7 at the minutes field star-slash-0. -/
theorem claim_C7_witness :
    parseField (['*', '/', '0']) 0 59 = Res.err ("Invalid step value in */0") :=
  (claim_C7_amended ['*', '/', '0'] 0 59).1 (by decide) (by rfl)

/-- Claim C6: both search directions are bounded and report failure.
The public entry points run the loop with exactly 10000 fuel units (one
per while-loop iteration); exhausted fuel yields none; the forward loop
stops as soon as the cursor year exceeds the active bound maxYearOf
(the maximum of the year set, 2099 when the set is empty) and the
backward loop when the cursor year drops below minYearOf (the minimum
of the year set, 1970 when empty); and a search that ends with no match
surfaces the no-fire-time error of next and previous. -/
theorem claim_C6_search_bounded (p : CronParser) (d : DateTime) (fuel : Nat) :
    (getNextFireTime p d = getNextFireTimeAux p 10000 d) ∧
    (getPreviousFireTime p d = getPreviousFireTimeAux p 10000 (subSecond d)) ∧
    (getNextFireTimeAux p 0 d = none) ∧
    (getPreviousFireTimeAux p 0 d = none) ∧
    (d.year > maxYearOf p → getNextFireTimeAux p fuel d = none) ∧
    (d.year < minYearOf p → getPreviousFireTimeAux p fuel d = none) ∧
    (p.years.values = [] → maxYearOf p = 2099 ∧ minYearOf p = 1970) ∧
    (getNextFireTime p d = none → next p d = Except.error ("No next execution time found")) ∧
    (getPreviousFireTime p d = none →
      previous p d = Except.error ("No previous execution time found")) := by
  refine ⟨rfl, rfl, rfl, rfl, ?_, ?_, ?_, ?_, ?_⟩
  · intro h
    cases fuel with
    | zero => rfl
    | succ n => simp [getNextFireTimeAux, nextStep, h]
  · intro h
    cases fuel with
    | zero => rfl
    | succ n => simp [getPreviousFireTimeAux, prevStep, h]
  · intro hy
    constructor
    · simp [maxYearOf, hy]
    · simp [minYearOf, hy]
  · intro h
    simp only [next, h]
  · intro h
    simp only [previous, h]

/-- Witness for C6: the unconstrained default model stops immediately
above 2099 going forward and below 1970 going backward, and next
surfaces the error. -/
theorem claim_C6_witness :
    getNextFireTimeAux CronParser.init 5 ⟨2100, 1, 1, 0, 0, 0⟩ = none ∧
    getPreviousFireTimeAux CronParser.init 5 ⟨1969, 12, 31, 0, 0, 0⟩ = none ∧
    (maxYearOf CronParser.init = 2099 ∧ minYearOf CronParser.init = 1970) ∧
    next CronParser.init ⟨2100, 1, 1, 0, 0, 0⟩ = Except.error ("No next execution time found") :=
  ⟨(claim_C6_search_bounded CronParser.init ⟨2100, 1, 1, 0, 0, 0⟩ 5).2.2.2.2.1 (by decide),
   (claim_C6_search_bounded CronParser.init ⟨1969, 12, 31, 0, 0, 0⟩ 5).2.2.2.2.2.1 (by decide),
   (claim_C6_search_bounded CronParser.init ⟨2100, 1, 1, 0, 0, 0⟩ 5).2.2.2.2.2.2.1 rfl,
   (claim_C6_search_bounded CronParser.init ⟨2100, 1, 1, 0, 0, 0⟩ 5).2.2.2.2.2.2.2.1 (by rfl)⟩

/-- Inversion of a successful monadic bind in Res: if the whole
computation completed normally, the first stage did too. -/
theorem res_bind_eq_pure {α β : Type} (x : Res α) (f : α → Res β) (b : β)
    (h : (x >>= f) = pure b) : ∃ a, x = pure a ∧ f a = pure b := by
  obtain ⟨r⟩ := x
  cases r with
  | none => exact Option.noConfusion (congrArg Res.run h)
  | some e =>
    cases e with
    | error m => exact Except.noConfusion (Option.some.inj (congrArg Res.run h))
    | ok a => exact ⟨a, rfl, h⟩

/-- pure is injective in Res. -/
theorem res_pure_inj {α : Type} {a b : α} (h : (pure a : Res α) = pure b) : a = b :=
  Except.ok.inj (Option.some.inj (congrArg Res.run h))

/-- A thrown error is never a normal completion. -/
theorem res_err_ne_pure {α : Type} (e : String) (b : α) : Res.err e ≠ pure b :=
  fun h => Except.noConfusion (Option.some.inj (congrArg Res.run h))

/-- parseDayOfMonth never writes the years field. -/
theorem parseDayOfMonth_years (f : List Char) (st st2 : CronParser)
    (h : parseDayOfMonth f st = pure st2) : st2.years = st.years := by
  simp only [parseDayOfMonth] at h
  repeat' split at h
  all_goals try (obtain ⟨a, ha, h⟩ := res_bind_eq_pure _ _ _ h)
  all_goals try (repeat' split at h)
  all_goals first
    | (cases res_pure_inj h; rfl)
    | exact absurd h (res_err_ne_pure _ _)

/-- parseMonth never writes the years field. -/
theorem parseMonth_years (f : List Char) (st st2 : CronParser)
    (h : parseMonth f st = pure st2) : st2.years = st.years := by
  simp only [parseMonth] at h
  obtain ⟨a, ha, h⟩ := res_bind_eq_pure _ _ _ h
  cases res_pure_inj h
  rfl

/-- parseDayOfWeek never writes the years field. -/
theorem parseDayOfWeek_years (f : List Char) (st st2 : CronParser)
    (h : parseDayOfWeek f st = pure st2) : st2.years = st.years := by
  simp only [parseDayOfWeek] at h
  repeat' split at h
  all_goals try (obtain ⟨a, ha, h⟩ := res_bind_eq_pure _ _ _ h)
  all_goals first
    | (cases res_pure_inj h; rfl)
    | exact absurd h (res_err_ne_pure _ _)

/-- Claim C9: when the expression has at most 6 fields (the year field
is absent), the parsed model leaves the year field at its unconstrained
initializer (empty value list, no step) rather than defaulting it to
the current year.  The embedded parse is a pure function of the
expression string alone, mirroring the source constructor, which never
reads the clock; therefore two schedules built from the same 5- or
6-field expression at different wall-clock times are the same model. -/
theorem claim_C9_year_unconstrained (s : String) (p : CronParser)
    (h : parse s = pure p) (hlen : (splitWS s.data).length ≤ 6) :
    p.years = ⟨[], none⟩ := by
  simp only [parse] at h
  split at h
  · exact absurd h (res_err_ne_pure _ _)
  split at h
  · exact absurd h (res_err_ne_pure _ _)
  obtain ⟨secs, h1, h⟩ := res_bind_eq_pure _ _ _ h
  obtain ⟨mins, h2, h⟩ := res_bind_eq_pure _ _ _ h
  obtain ⟨hrs, h3, h⟩ := res_bind_eq_pure _ _ _ h
  obtain ⟨st1, h4, h⟩ := res_bind_eq_pure _ _ _ h
  obtain ⟨st2, h5, h⟩ := res_bind_eq_pure _ _ _ h
  obtain ⟨st3, h6, h⟩ := res_bind_eq_pure _ _ _ h
  rw [if_neg (by omega)] at h
  cases res_pure_inj h
  rw [parseDayOfWeek_years _ _ _ h6, parseMonth_years _ _ _ h5,
    parseDayOfMonth_years _ _ _ h4]
  rfl

/-- Witness for C9: the five-field expression 0 star star star star. -/
theorem claim_C9_witness : hourlySched.years = ⟨[], none⟩ :=
  claim_C9_year_unconstrained ("0 * * * *") hourlySched rfl (by decide)

/-- On an ascending list, find? with the at-least-v predicate returns
the least element at least v. -/
theorem find_ge_sorted (v : Int) :
    ∀ (l : List Int) (r : Int), List.Pairwise (fun a b => a ≤ b) l →
      l.find? (fun x => v ≤ x) = some r → v ≤ r ∧ ∀ x ∈ l, v ≤ x → r ≤ x := by
  intro l
  induction l with
  | nil => intro r _ h; exact Option.noConfusion h
  | cons a t ih =>
    intro r hp h
    rcases List.pairwise_cons.mp hp with ⟨ha, hp2⟩
    by_cases hva : v ≤ a
    · rw [List.find?_cons_of_pos _ (by simpa using hva)] at h
      cases Option.some.inj h
      refine ⟨hva, fun x hx _ => ?_⟩
      rcases List.mem_cons.mp hx with hxa | hx2
      · rw [hxa]
      · exact ha x hx2
    · rw [List.find?_cons_of_neg _ (by simpa using hva)] at h
      obtain ⟨h1, h2⟩ := ih r hp2 h
      refine ⟨h1, fun x hx hvx => ?_⟩
      rcases List.mem_cons.mp hx with hxa | hx2
      · rw [hxa] at hvx; exact absurd hvx hva
      · exact h2 x hx2 hvx

/-- On a descending list, find? with the at-most-v predicate returns
the greatest element at most v. -/
theorem find_le_sorted_desc (v : Int) :
    ∀ (l : List Int) (r : Int), List.Pairwise (fun a b => b ≤ a) l →
      l.find? (fun x => x ≤ v) = some r → r ≤ v ∧ ∀ x ∈ l, x ≤ v → x ≤ r := by
  intro l
  induction l with
  | nil => intro r _ h; exact Option.noConfusion h
  | cons a t ih =>
    intro r hp h
    rcases List.pairwise_cons.mp hp with ⟨ha, hp2⟩
    by_cases hva : a ≤ v
    · rw [List.find?_cons_of_pos _ (by simpa using hva)] at h
      cases Option.some.inj h
      refine ⟨hva, fun x hx _ => ?_⟩
      rcases List.mem_cons.mp hx with hxa | hx2
      · rw [hxa]
      · exact ha x hx2
    · rw [List.find?_cons_of_neg _ (by simpa using hva)] at h
      obtain ⟨h1, h2⟩ := ih r hp2 h
      refine ⟨h1, fun x hx hvx => ?_⟩
      rcases List.mem_cons.mp hx with hxa | hx2
      · rw [hxa] at hvx; exact absurd hvx hva
      · exact h2 x hx2 hvx

/-- Claim C10: on every non-empty list, getNextValue returns an element
of the list and never undefined (on an ascending list it is the least
element at least the probe, else the wrap to the head), and
getPreviousValue symmetrically returns an element (the greatest element
at most the probe, else the wrap to the last); consequently the
undefined-test overflow-carry branches for hour, minute and second in
both walks are dead, because their scrutinee (exactly the shape matched
in the hour, minute and second levels) is always some, and the hour,
minute and second candidate lists of the walks are never empty. -/
theorem claim_C10_get_value_total (vals : List Int) (v : Int) (hne : vals ≠ []) :
    (∃ r, getNextValue vals v = some r ∧ r ∈ vals) ∧
    (∃ r, getPreviousValue vals v = some r ∧ r ∈ vals) ∧
    (List.Pairwise (fun a b => a ≤ b) vals →
      (∀ r, getNextValue vals v = some r →
        (v ≤ r ∧ ∀ x ∈ vals, v ≤ x → r ≤ x) ∨ ((∀ x ∈ vals, x < v) ∧ vals.head? = some r)) ∧
      (∀ r, getPreviousValue vals v = some r →
        (r ≤ v ∧ ∀ x ∈ vals, x ≤ v → x ≤ r) ∨ ((∀ x ∈ vals, v < x) ∧ vals.getLast? = some r))) ∧
    (∀ b : Bool,
      (if b then vals.head?
       else match getNextValue vals v with
            | some h => some h
            | none => vals.head?).isSome = true ∧
      (if b then vals.getLast?
       else match getPreviousValue vals v with
            | some h => some h
            | none => vals.getLast?).isSome = true) ∧
    (∀ p : CronParser, hourValuesOf p ≠ [] ∧ minuteValuesOf p ≠ [] ∧ secondValuesOf p ≠ []) := by
  have hnx : ∃ r, getNextValue vals v = some r ∧ r ∈ vals := by
    cases hf : vals.find? (fun x => v ≤ x) with
    | some w =>
      exact ⟨w, by simp only [getNextValue, hf], List.mem_of_find?_eq_some hf⟩
    | none =>
      cases vals with
      | nil => exact absurd rfl hne
      | cons a t =>
        exact ⟨a, by simp only [getNextValue, hf, List.head?_cons], List.mem_cons_self a t⟩
  have hpx : ∃ r, getPreviousValue vals v = some r ∧ r ∈ vals := by
    cases hf : vals.reverse.find? (fun x => x ≤ v) with
    | some w =>
      refine ⟨w, by simp only [getPreviousValue, hf], ?_⟩
      exact List.mem_reverse.mp (List.mem_of_find?_eq_some hf)
    | none =>
      cases hg : vals.getLast? with
      | none =>
        have := List.getLast?_isSome.mpr hne
        rw [hg] at this
        exact absurd this (by simp)
      | some w =>
        exact ⟨w, by simp only [getPreviousValue, hf, hg], List.mem_of_getLast?_eq_some hg⟩
  refine ⟨hnx, hpx, ?_, ?_, ?_⟩
  · intro hs
    constructor
    · intro r hr
      cases hf : vals.find? (fun x => v ≤ x) with
      | some w =>
        simp only [getNextValue, hf] at hr
        cases Option.some.inj hr
        exact Or.inl (find_ge_sorted v vals r hs hf)
      | none =>
        simp only [getNextValue, hf] at hr
        refine Or.inr ⟨fun x hx => ?_, hr⟩
        have := List.find?_eq_none.mp hf x hx
        simpa using this
    · intro r hr
      have hs2 : List.Pairwise (fun a b => b ≤ a) vals.reverse :=
        List.pairwise_reverse.mpr hs
      cases hf : vals.reverse.find? (fun x => x ≤ v) with
      | some w =>
        simp only [getPreviousValue, hf] at hr
        cases Option.some.inj hr
        obtain ⟨h1, h2⟩ := find_le_sorted_desc v vals.reverse r hs2 hf
        exact Or.inl ⟨h1, fun x hx hxv => h2 x (List.mem_reverse.mpr hx) hxv⟩
      | none =>
        simp only [getPreviousValue, hf] at hr
        refine Or.inr ⟨fun x hx => ?_, hr⟩
        have := List.find?_eq_none.mp hf x (List.mem_reverse.mpr hx)
        simpa using this
  · intro b
    obtain ⟨rn, hrn, _⟩ := hnx
    obtain ⟨rp, hrp, _⟩ := hpx
    cases b with
    | true =>
      constructor
      · simpa using List.head?_isSome.mpr hne
      · simpa using List.getLast?_isSome.mpr hne
    | false =>
      constructor
      · simp [hrn]
      · simp [hrp]
  · intro p
    refine ⟨?_, ?_, ?_⟩
    · cases hh : p.hours.values.isEmpty with
      | true => simp only [hourValuesOf, hh, if_true]; decide
      | false => simp only [hourValuesOf, hh, if_false]; exact List.isEmpty_eq_false.mp hh
    · cases hh : p.minutes.values.isEmpty with
      | true => simp only [minuteValuesOf, hh, if_true]; decide
      | false => simp only [minuteValuesOf, hh, if_false]; exact List.isEmpty_eq_false.mp hh
    · cases hh : p.seconds.values.isEmpty with
      | true => simp only [secondValuesOf, hh, if_true]; decide
      | false => simp only [secondValuesOf, hh, if_false]; exact List.isEmpty_eq_false.mp hh

/-- Witness for C10 at the minutes list 0, 30, 45 and probe 31. -/
theorem claim_C10_witness :
    ∃ r, getNextValue [0, 30, 45] 31 = some r ∧ r ∈ [0, 30, 45] :=
  (claim_C10_get_value_total [0, 30, 45] 31 (by decide)).1

end CronDescribe
